import Mathlib

/-!
Verification development for the claims CLI render pipeline
(stuttgart-things/claims).

The Go sources are shallowly embedded: pure helpers become Lean functions,
IO effects (file writes, git operations, environment lookup) are modelled
by explicit state passing and oracle parameters, and fallible Go functions
returning `(T, error)` become `Except String T`.
-/

namespace Claims

/-- Scalar parameter value, embedding the dynamic `interface{}` values that
flow through parameter maps (strings from inline flags, numbers/bools from
YAML), restricted to the scalar shapes the pipeline actually carries. -/
inductive PVal where
  | str (s : String)
  | num (n : Int)
  | boolean (b : Bool)

/-- Go `fmt.Sprintf("%v", v)` on a scalar parameter value. -/
def formatPVal : PVal → String
  | .str s => s
  | .num n => toString n
  | .boolean b => if b then "true" else "false"

/-- `params.TemplateParams`: one selected template plus its parameter map.
Go's `map[string]interface{}` is modelled extensionally as a partial
function from keys to values. -/
structure TemplateParams where
  Name : String
  Parameters : String → Option PVal

/-- `cmd.RenderResult` (cmd/render_types.go). `Error` is `Option String`
standing for Go's `error` field; absent fields default to Go zero values. -/
structure RenderResult where
  TemplateName : String := ""
  ResourceName : String := ""
  OutputPath : String := ""
  Content : String := ""
  Params : String → Option PVal := fun _ => none
  Error : Option String := none

/-- One iteration of the render loop body in `runNonInteractive`
(render.go): on success the result carries content, a resource name taken
from the `name` parameter (string-coerced via `%v`) or the literal
`"output"`, and the parameters; on failure only the template name and the
error are stored (other fields keep their zero values). -/
def renderOne (render : String → (String → Option PVal) → Except String String)
    (tp : TemplateParams) : RenderResult :=
  match render tp.Name tp.Parameters with
  | .error e => { TemplateName := tp.Name, Error := some e }
  | .ok content =>
      { TemplateName := tp.Name
        ResourceName :=
          match tp.Parameters "name" with
          | some v => formatPVal v
          | none => "output"
        Content := content
        Params := tp.Parameters }

/-- The `for _, tp := range templateParams` render loop of
`runNonInteractive`: appends exactly one result per template, continuing
past failures. -/
def renderLoop (render : String → (String → Option PVal) → Except String String) :
    List TemplateParams → List RenderResult
  | [] => []
  | tp :: rest => renderOne render tp :: renderLoop render rest

/-! ## Filesystem model

File writes and directory creation are modelled on an explicit filesystem
state; an oracle injects the IO errors `os.WriteFile` / `os.MkdirAll` may
return (`none` = the call succeeds). -/

/-- Filesystem state: created directories and written files (path ↦ content). -/
structure FS where
  dirs : List String
  files : List (String × String)

/-- IO error oracle: result of `os.MkdirAll` / `os.WriteFile` per path. -/
structure IOOracle where
  mkdirErr : String → Option String
  writeErr : String → Option String

/-- The oracle under which every filesystem call succeeds. -/
def okOracle : IOOracle := ⟨fun _ => none, fun _ => none⟩

/-- The empty filesystem. -/
def fs0 : FS := ⟨[], []⟩

/-- Store a file, overwriting any previous content at the same path. -/
def setFile : List (String × String) → String → String → List (String × String)
  | [], p, c => [(p, c)]
  | (q, d) :: rest, p, c =>
      if q = p then (p, c) :: rest else (q, d) :: setFile rest p c

/-- `os.WriteFile`. -/
def writeFileFS (o : IOOracle) (fs : FS) (p c : String) : Except String FS :=
  match o.writeErr p with
  | some e => .error e
  | none => .ok { fs with files := setFile fs.files p c }

/-- `os.MkdirAll`. -/
def mkdirAllFS (o : IOOracle) (fs : FS) (d : String) : Except String FS :=
  match o.mkdirErr d with
  | some e => .error e
  | none => .ok { fs with dirs := if fs.dirs.contains d then fs.dirs else fs.dirs ++ [d] }

/-- `filepath.Join` for the two-component joins used here (no path
cleaning is exercised by any input in this development). -/
def joinPath (d f : String) : String := d ++ "/" ++ f

/-! ## Filename pattern expansion (`GenerateFilename`, cmd/render_output.go)

`GenerateFilename` parses the pattern with Go `text/template` and executes
it on the map `{"template": info.TemplateName, "name": info.ResourceName}`.
The embedding interprets the fragment of `text/template` those patterns
use: literal text and `\x7b\x7b.field\x7d\x7d` actions.  As in
`text/template`, an action whose body is not a dotted field (e.g. a bare
identifier, which Go rejects as an undefined function or keyword misuse)
is a parse error, and an unterminated action is a parse error; a dotted
field absent from the data map renders as `<no value>`. -/

def lbrace : Char := Char.ofNat 123

def rbrace : Char := Char.ofNat 125

/-- Go identifier character (for template field names). -/
def identChar (c : Char) : Bool := c.isAlphanum || c = '_'

/-- `FileInfo` from cmd/render_output.go. -/
structure FileInfo where
  TemplateName : String
  ResourceName : String

/-- The data map built inside `GenerateFilename`. -/
def fieldValue (info : FileInfo) (f : String) : String :=
  if f = "template" then info.TemplateName
  else if f = "name" then info.ResourceName
  else "<no value>"

/-- Evaluate one action body (the text between the delimiters): spaces are
trimmed, then only `.field` accesses are valid, as for the patterns this
program feeds to `text/template`. -/
def substAction (info : FileInfo) (raw : List Char) : Except String String :=
  let a := ((raw.dropWhile (· = ' ')).reverse.dropWhile (· = ' ')).reverse
  match a with
  | '.' :: fieldChars =>
      if fieldChars ≠ [] ∧ fieldChars.all identChar then
        .ok (fieldValue info (String.mk fieldChars))
      else .error "unsupported action"
  | _ => .error "unsupported action"

/-- Lexer state for the one-pass pattern interpreter: plain text, text
having just seen one left brace, inside an action, and inside an action
having just seen one right brace. -/
inductive TMode where
  | text
  | textBrace
  | act
  | actBrace
deriving DecidableEq, Repr

/-- One-pass interpreter for the pattern, consuming one character per
step: `\x7b\x7b` switches from text to action mode, the first `\x7d\x7d`
inside an action closes it (as `text/template`'s lexer does), `acc` holds
the action body (reversed), and running out of input inside an action is
the unterminated-action parse error. -/
def execGo (info : FileInfo) : TMode → List Char → List Char → Except String String
  | .text, _, [] => .ok ""
  | .textBrace, _, [] => .ok (String.mk [lbrace])
  | .act, _, [] => .error "unclosed action"
  | .actBrace, _, [] => .error "unclosed action"
  | .text, acc, c :: rest =>
      if c = lbrace then execGo info .textBrace acc rest
      else (execGo info .text acc rest).map (fun t => String.mk [c] ++ t)
  | .textBrace, acc, c :: rest =>
      if c = lbrace then execGo info .act [] rest
      else (execGo info .text acc rest).map (fun t => String.mk [lbrace, c] ++ t)
  | .act, acc, c :: rest =>
      if c = rbrace then execGo info .actBrace acc rest
      else execGo info .act (c :: acc) rest
  | .actBrace, acc, c :: rest =>
      if c = rbrace then
        match substAction info acc.reverse with
        | .error e => .error e
        | .ok v => (execGo info .text [] rest).map (fun t => v ++ t)
      else execGo info .act (c :: rbrace :: acc) rest

/-- Decidable equality for `Except`, used to evaluate the embedded
functions on concrete inputs. -/
def exceptDecEq {α β : Type} [DecidableEq α] [DecidableEq β] :
    DecidableEq (Except α β)
  | .error a, .error b =>
      if h : a = b then .isTrue (by rw [h]) else .isFalse (fun he => h (by cases he; rfl))
  | .error _, .ok _ => .isFalse (fun he => by cases he)
  | .ok _, .error _ => .isFalse (fun he => by cases he)
  | .ok a, .ok b =>
      if h : a = b then .isTrue (by rw [h]) else .isFalse (fun he => h (by cases he; rfl))

instance {α β : Type} [DecidableEq α] [DecidableEq β] : DecidableEq (Except α β) :=
  exceptDecEq

/-- `GenerateFilename(pattern, info)`: errors (from parsing or execution)
are surfaced as errors, never as a partial filename. -/
def GenerateFilename (pattern : String) (info : FileInfo) : Except String String :=
  match execGo info .text [] pattern.toList with
  | .error e => .error ("invalid filename pattern: " ++ e)
  | .ok s => .ok s

/-! ## Output writer (cmd/render_output.go) -/

/-- `OutputConfig` from cmd/render_output.go. -/
structure OutputConfig where
  Directory : String
  FilenamePattern : String
  SingleFile : Bool
  DryRun : Bool

/-- The document separator written between successful artifacts in
single-file mode (Go writes the string of a newline, three dashes and a
newline). -/
def sepStr : List Char := ['\n', '-', '-', '-', '\n']

/-- `strings.TrimSpace` on the character level: drop whitespace from both
ends of the string. -/
def trimSpace (s : String) : List Char :=
  ((s.data.dropWhile Char.isWhitespace).reverse.dropWhile Char.isWhitespace).reverse

/-- The loop body of `writeSingleFile` building the combined string:
`n` is the length of the full result list, `i` the index of the head of
`rest`, `acc` the builder contents.  Failed renders are skipped; a
separator is written when the builder is nonempty; content is trimmed;
a trailing newline is added for every element except the last. -/
def combineAux (n : Nat) : List Char → Nat → List RenderResult → List Char
  | acc, _, [] => acc
  | acc, i, r :: rest =>
    if r.Error.isSome then combineAux n acc (i + 1) rest
    else
      let acc1 := if acc.length > 0 then acc ++ sepStr else acc
      let acc2 := acc1 ++ trimSpace r.Content
      let acc3 := if i < n - 1 then acc2 ++ ['\n'] else acc2
      combineAux n acc3 (i + 1) rest

/-- The combined string `writeSingleFile` assembles. -/
def combineContents (results : List RenderResult) : String :=
  String.mk (combineAux results.length [] 0 results)

/-- The combined file's name in `writeSingleFile`: the template name of
the FIRST result (successful or not) with the `-combined.yaml` suffix,
falling back to `combined-claims.yaml` for an empty list or empty first
template name. -/
def singleFileName (results : List RenderResult) : String :=
  match results with
  | [] => "combined-claims.yaml"
  | r :: _ =>
      if r.TemplateName ≠ "" then r.TemplateName ++ "-combined.yaml"
      else "combined-claims.yaml"

/-- `writeSingleFile`: writes the combined content to one file; the
result list is returned as it was passed in (no `OutputPath` is ever
recorded on this path). -/
def writeSingleFile (o : IOOracle) (fs : FS) (results : List RenderResult)
    (config : OutputConfig) : Except String (FS × List RenderResult) :=
  let path := joinPath config.Directory (singleFileName results)
  match writeFileFS o fs path (combineContents results) with
  | .error e => .error ("writing combined file: " ++ e)
  | .ok fs1 => .ok (fs1, results)

/-- `writeSeparateFiles`: skips failed results; expands the filename
pattern per result (a pattern failure aborts the whole write); writes the
content verbatim and records the written path on the result. -/
def writeSeparateFiles (o : IOOracle) (config : OutputConfig) :
    FS → List RenderResult → Except String (FS × List RenderResult)
  | fs, [] => .ok (fs, [])
  | fs, r :: rest =>
    if r.Error.isSome then
      match writeSeparateFiles o config fs rest with
      | .error e => .error e
      | .ok (fs1, rs) => .ok (fs1, r :: rs)
    else
      match GenerateFilename config.FilenamePattern ⟨r.TemplateName, r.ResourceName⟩ with
      | .error e => .error e
      | .ok filename =>
        let path := joinPath config.Directory filename
        match writeFileFS o fs path r.Content with
        | .error e => .error ("writing " ++ path ++ ": " ++ e)
        | .ok fs1 =>
          match writeSeparateFiles o config fs1 rest with
          | .error e => .error e
          | .ok (fs2, rs) => .ok (fs2, { r with OutputPath := path } :: rs)

/-- `WriteResults`: dry-run prints and writes nothing; otherwise the
output directory is created and the results are written in single-file or
separate mode. -/
def WriteResults (o : IOOracle) (fs : FS) (results : List RenderResult)
    (config : OutputConfig) : Except String (FS × List RenderResult) :=
  if config.DryRun then .ok (fs, results)
  else
    match mkdirAllFS o fs config.Directory with
    | .error e => .error ("creating output directory: " ++ e)
    | .ok fs1 =>
      if config.SingleFile then writeSingleFile o fs1 results config
      else writeSeparateFiles o config fs1 results

/-! ## Registry (internal/registry) -/

/-- `registry.ClaimEntry`. -/
structure ClaimEntry where
  Name : String := ""
  Template : String := ""
  Category : String := ""
  Namespace : String := ""
  CreatedAt : String := ""
  CreatedBy : String := ""
  Source : String := ""
  Repository : String := ""
  Path : String := ""
  Status : String := ""
deriving DecidableEq, Repr

/-- `registry.ClaimRegistry`. -/
structure ClaimRegistry where
  APIVersion : String := ""
  Kind : String := ""
  Claims : List ClaimEntry := []
deriving DecidableEq, Repr

/-- The loop of `registry.AddEntry`: replace the first entry with the
same name, else append. -/
def addEntryList : List ClaimEntry → ClaimEntry → List ClaimEntry
  | [], e => [e]
  | x :: rest, e =>
      if x.Name = e.Name then e :: rest else x :: addEntryList rest e

/-- `registry.AddEntry` (upsert by name). -/
def AddEntry (reg : ClaimRegistry) (entry : ClaimEntry) : ClaimRegistry :=
  { reg with Claims := addEntryList reg.Claims entry }

/-- The loop of `registry.RemoveEntry`: delete the first entry with the
given name; `none` when absent. -/
def removeEntryList : List ClaimEntry → String → Option (List ClaimEntry)
  | [], _ => none
  | x :: rest, n =>
      if x.Name = n then some rest
      else (removeEntryList rest n).map (fun l => x :: l)

/-- `registry.RemoveEntry`: errors (leaving the registry untouched) when
no entry has the given name. -/
def RemoveEntry (reg : ClaimRegistry) (name : String) : Except String ClaimRegistry :=
  match removeEntryList reg.Claims name with
  | some l => .ok { reg with Claims := l }
  | none => .error ("claim \"" ++ name ++ "\" not found in registry")

/-! ## Parameter merging (internal/params) -/

/-- `params.MergeParams`: copy the file parameters, then overwrite with
the inline parameters (inline wins on collision).  Go maps are modelled
extensionally. -/
def MergeParams {α : Type} (fileParams inlineParams : String → Option α) :
    String → Option α :=
  fun k =>
    match inlineParams k with
    | some v => some v
    | none => fileParams k

/-! ## Git operations (internal/gitops, cmd/render_git.go)

The process environment is a total function from variable names to values
(`""` = unset, as `os.Getenv` returns).  The git library calls are an
oracle (`GitBackend`); `executeGitOperations` additionally returns the
ordered trace of git actions it performed, so that theorems can speak
about what was staged, committed and pushed. -/

/-- `gitops.ResolveCredentials` (internal/gitops/auth.go): blank user
falls back to `GIT_USER`; blank token to `GIT_TOKEN`, then to
`GITHUB_TOKEN`; errors when either is still blank. -/
def ResolveCredentials (env : String → String) (user token : String) :
    Except String (String × String) :=
  let user1 := if user = "" then env "GIT_USER" else user
  let token1 :=
    if token = "" then
      if env "GIT_TOKEN" = "" then env "GITHUB_TOKEN" else env "GIT_TOKEN"
    else token
  if user1 = "" ∨ token1 = "" then
    .error "git credentials required: set --git-user/--git-token or GIT_USER/GIT_TOKEN environment variables"
  else .ok (user1, token1)

/-- `gitops.ResolveCredentialsOptional`: same fallbacks, never errors. -/
def ResolveCredentialsOptional (env : String → String) (user token : String) :
    String × String :=
  let user1 := if user = "" then env "GIT_USER" else user
  let token1 :=
    if token = "" then
      if env "GIT_TOKEN" = "" then env "GITHUB_TOKEN" else env "GIT_TOKEN"
    else token
  (user1, token1)

/-- The credential step of `executeGitOperations`: push requires full
resolution, commit-only takes whatever resolved. -/
def resolveStep (push : Bool) (env : String → String) (user token : String) :
    Except String (String × String) :=
  if push then ResolveCredentials env user token
  else .ok (ResolveCredentialsOptional env user token)

/-- The author defaulting inside `gitops.Commit`: blank name/email become
the fixed bot identity. -/
def commitSignature (authorName authorEmail : String) : String × String :=
  (if authorName = "" then "claims-cli" else authorName,
   if authorEmail = "" then "claims-cli@automated" else authorEmail)

/-- `cmd.GitConfig`. -/
structure GitConfig where
  Commit : Bool := false
  Push : Bool := false
  CreateBranch : Bool := false
  Message : String := ""
  Branch : String := ""
  Remote : String := ""
  RepoURL : String := ""
  User : String := ""
  Token : String := ""

/-- `cmd.PRConfig`. -/
structure PRConfig where
  Create : Bool := false
  Title : String := ""
  Description : String := ""
  Labels : List String := []
  BaseBranch : String := ""

/-- `cmd.RenderConfig` (the fields the non-interactive pipeline reads
after parameter resolution). -/
structure RenderConfig where
  APIUrl : String := ""
  Templates : List String := []
  ParamsFile : String := ""
  OutputDir : String := ""
  FilenamePattern : String := ""
  SingleFile : Bool := false
  DryRun : Bool := false
  Interactive : Bool := false
  GitConfig : Option GitConfig := none
  PRConfig : Option PRConfig := none

/-- Observable git operations, in execution order. -/
inductive GitAction where
  | clone (url : String)
  | openRepo (path : String)
  | createBranch (b : String)
  | checkoutBranch (b : String)
  | addFiles (paths : List String)
  | commit (message authorName authorEmail : String)
  | push (remote branch : String)
  | createPR
deriving DecidableEq, Repr

/-- Oracle for the git library calls made by `executeGitOperations`:
clone (returning the temp dir), repo-root discovery (`findRepoRoot`),
`gitops.New`, branch creation/checkout, staging, the underlying worktree
commit, push, current-branch lookup, the `os.Stat` probe for
`registry.yaml`, and PR creation. -/
structure GitBackend where
  cloneR : String → Except String String
  findRootR : String → Except String String
  openR : String → Except String Unit
  createBranchR : String → Except String Unit
  checkoutBranchR : String → Except String Unit
  addFilesR : List String → Except String Unit
  commitR : String → String → String → Except String Unit
  pushR : String → String → Except String Unit
  currentBranchR : Except String String
  statR : String → Bool
  createPRR : Except String Unit

/-- A backend on which every git operation succeeds (and no registry
file is present on disk). -/
def okBackend : GitBackend :=
  ⟨fun _ => .ok "/tmp/claims-gitops", fun _ => .ok "/repo", fun _ => .ok (),
   fun _ => .ok (), fun _ => .ok (), fun _ => .ok (), fun _ _ _ => .ok (),
   fun _ _ => .ok (), .ok "main", fun _ => false, .ok ()⟩

/-- Every operation of the backend succeeds. -/
def BackendOk (b : GitBackend) : Prop :=
  (∀ u, ∃ d, b.cloneR u = .ok d) ∧
  (∀ p, ∃ r, b.findRootR p = .ok r) ∧
  (∀ p, b.openR p = .ok ()) ∧
  (∀ x, b.createBranchR x = .ok ()) ∧
  (∀ x, b.checkoutBranchR x = .ok ()) ∧
  (∀ ps, b.addFilesR ps = .ok ()) ∧
  (∀ m a e, b.commitR m a e = .ok ()) ∧
  (∀ rm br, b.pushR rm br = .ok ()) ∧
  (∃ br, b.currentBranchR = .ok br) ∧
  b.createPRR = .ok ()

/-- File-path collection in `executeGitOperations`: the output paths of
results that were written (nonempty path) and succeeded. -/
def collectFilePaths (results : List RenderResult) : List String :=
  (results.filter (fun r => r.OutputPath ≠ "" && r.Error.isNone)).map (fun r => r.OutputPath)

/-- Template names of the successful results, in order (used for the
default commit message). -/
def successNames (results : List RenderResult) : List String :=
  (results.filter (fun r => r.Error.isNone)).map (fun r => r.TemplateName)

/-- The commit-message defaulting in `executeGitOperations`: a blank
configured message becomes `Rendered claims: ` followed by the
comma-joined successful template names. -/
def defaultMessage (configured : String) (results : List RenderResult) : String :=
  if configured = "" then
    "Rendered claims: " ++ String.intercalate ", " (successNames results)
  else configured

/-- The repository-acquisition step: clone when a URL is configured,
else walk up from the output directory and open the repository. -/
def acquireRepo (gc : GitConfig) (outputDir : String) (b : GitBackend) :
    Except String (String × List GitAction) :=
  if gc.RepoURL ≠ "" then
    match b.cloneR gc.RepoURL with
    | .error e => .error e
    | .ok tmp => .ok (tmp, [GitAction.clone gc.RepoURL])
  else
    match b.findRootR outputDir with
    | .error e => .error ("output directory is not in a git repository: " ++ e)
    | .ok root =>
      match b.openR root with
      | .error e => .error e
      | .ok _ => .ok (root, [GitAction.openRepo root])

/-- The branch step: create-and-checkout when requested, else check out
the named branch, else stay on the current branch. -/
def branchStep (gc : GitConfig) (b : GitBackend) : Except String (List GitAction) :=
  if gc.CreateBranch ∧ gc.Branch ≠ "" then
    match b.createBranchR gc.Branch with
    | .error e => .error e
    | .ok _ => .ok [GitAction.createBranch gc.Branch]
  else if gc.Branch ≠ "" then
    match b.checkoutBranchR gc.Branch with
    | .error e => .error e
    | .ok _ => .ok [GitAction.checkoutBranch gc.Branch]
  else .ok []

/-- The push-and-PR tail of `executeGitOperations`: defaults the remote
to `origin`, pushes the configured branch (querying the current branch
when blank), and creates the PR afterwards when requested. -/
def pushStep (gc : GitConfig) (prc : Option PRConfig) (b : GitBackend)
    (acts : List GitAction) : Except String (List GitAction) :=
  let remote := if gc.Remote = "" then "origin" else gc.Remote
  match (if gc.Branch = "" then b.currentBranchR else .ok gc.Branch) with
  | .error e => .error ("getting current branch: " ++ e)
  | .ok branch =>
    match b.pushR remote branch with
    | .error e => .error e
    | .ok _ =>
      let acts1 := acts ++ [GitAction.push remote branch]
      match prc with
      | some pr =>
        if pr.Create then
          match b.createPRR with
          | .error e => .error ("creating pull request: " ++ e)
          | .ok _ => .ok (acts1 ++ [GitAction.createPR])
        else .ok acts1
      | none => .ok acts1

/-- `executeGitOperations` (cmd/render_git.go): no-op without a git
configuration or with neither commit nor push requested; resolves
credentials (mandatory for push); acquires the repository; handles the
branch; collects the written successful output paths, failing with the
no-files-to-commit error when none exist; stages them (plus the registry
file when present on disk); commits with the (possibly defaulted)
message and the resolved user as author (email blank, so the bot email
applies); then pushes and creates the PR when requested. -/
def executeGitOperations (results : List RenderResult) (config : RenderConfig)
    (env : String → String) (b : GitBackend) : Except String (List GitAction) :=
  match config.GitConfig with
  | none => .ok []
  | some gc =>
    if ¬gc.Commit ∧ ¬gc.Push then .ok []
    else
      match resolveStep gc.Push env gc.User gc.Token with
      | .error e => .error e
      | .ok (user, _) =>
        match acquireRepo gc config.OutputDir b with
        | .error e => .error e
        | .ok (repoPath, acts0) =>
          match branchStep gc b with
          | .error e => .error e
          | .ok acts1 =>
            let filePaths := collectFilePaths results
            if filePaths.isEmpty then .error "no files to commit"
            else
              let registryPath := joinPath (joinPath repoPath "claims") "registry.yaml"
              let filePaths1 :=
                if b.statR registryPath then filePaths ++ [registryPath] else filePaths
              match b.addFilesR filePaths1 with
              | .error e => .error e
              | .ok _ =>
                let message := defaultMessage gc.Message results
                let sig := commitSignature user ""
                match b.commitR message sig.1 sig.2 with
                | .error e => .error ("committing: " ++ e)
                | .ok _ =>
                  let acts2 := acts0 ++ acts1 ++
                    [GitAction.addFiles filePaths1, GitAction.commit message sig.1 sig.2]
                  if gc.Push then pushStep gc config.PRConfig b acts2
                  else .ok acts2

/-- Commit messages appearing in a git-action trace. -/
def commitMsgs (trace : List GitAction) : List String :=
  trace.filterMap (fun a =>
    match a with
    | .commit m _ _ => some m
    | _ => none)

/-! ## Non-interactive pipeline (render.go, `runNonInteractive`)

The portion from the render loop to the final status: render every
selected template, write the results, then — unless dry-run — update the
registry (best-effort, modelled as an arbitrary filesystem transformer)
and run the git operations, and finally report an error when any
template failed to render. -/

/-- Observable outcome of the pipeline tail. -/
structure PipeResult where
  ret : Option String
  results : List RenderResult
  fs : FS
  gitTrace : List GitAction
  registryRan : Bool

/-- The `OutputConfig` built inside `runNonInteractive`. -/
def outputCfgOf (config : RenderConfig) : OutputConfig :=
  ⟨config.OutputDir, config.FilenamePattern, config.SingleFile, config.DryRun⟩

/-- `runNonInteractive` from the render loop on: one result per template
(failures recorded, batch continues), write, then registry update and
git operations unless dry-run, then the aggregate failure status. -/
def runNonInteractiveFromRender
    (render : String → (String → Option PVal) → Except String String)
    (tps : List TemplateParams) (config : RenderConfig) (env : String → String)
    (b : GitBackend) (o : IOOracle)
    (updateReg : List RenderResult → FS → FS) (fs : FS) : PipeResult :=
  let results := renderLoop render tps
  let hasErrors := results.any (fun r => r.Error.isSome)
  match WriteResults o fs results (outputCfgOf config) with
  | .error e =>
      { ret := some e, results := results, fs := fs, gitTrace := [], registryRan := false }
  | .ok (fs1, results1) =>
    if config.DryRun then
      { ret := if hasErrors then some "some templates failed to render" else none
        results := results1, fs := fs1, gitTrace := [], registryRan := false }
    else
      let fs2 := updateReg results1 fs1
      match executeGitOperations results1 config env b with
      | .error e =>
          { ret := some ("git operations: " ++ e), results := results1, fs := fs2,
            gitTrace := [], registryRan := true }
      | .ok trace =>
          { ret := if hasErrors then some "some templates failed to render" else none
            results := results1, fs := fs2, gitTrace := trace, registryRan := true }

/-! ## Counting the document separator and content order in combined output -/

/-- Whether the list begins with three dashes. -/
def startsTriple : List Char → Bool
  | a :: b :: c :: _ => a == '-' && b == '-' && c == '-'
  | _ => false

/-- Number of positions at which `---` occurs. -/
def countTriple : List Char → Nat
  | [] => 0
  | c :: rest => (if startsTriple (c :: rest) then 1 else 0) + countTriple rest

/-- Number of successful results. -/
def numSuccess (results : List RenderResult) : Nat :=
  (results.filter (fun r => r.Error.isNone)).length

/-- The trimmed contents of the successful results, in order. -/
def successContentsL (results : List RenderResult) : List (List Char) :=
  (results.filter (fun r => r.Error.isNone)).map (fun r => trimSpace r.Content)

/-- A filler string made only of separator characters. -/
def sepOnly (f : List Char) : Prop := ∀ c ∈ f, c = '\n' ∨ c = '-'

/-- `Glued parts s`: `s` is exactly the strings of `parts`, in order,
interleaved with filler consisting only of separator characters. -/
inductive Glued : List (List Char) → List Char → Prop where
  | nil : ∀ f, sepOnly f → Glued [] f
  | cons : ∀ f p rest s, sepOnly f → Glued rest s → Glued (p :: rest) (f ++ p ++ s)

/-- The lexer mode the pattern scan is left in after consuming the whole
input, mirroring the mode transitions of `execGo` exactly.  A pattern
whose scan ends inside an action (`act` or `actBrace`) is precisely a
pattern with an unterminated placeholder — wherever in the pattern the
unclosed `\x7b\x7b` sits. -/
def scanMode : TMode → List Char → TMode
  | m, [] => m
  | .text, c :: rest => if c = lbrace then scanMode .textBrace rest else scanMode .text rest
  | .textBrace, c :: rest => if c = lbrace then scanMode .act rest else scanMode .text rest
  | .act, c :: rest => if c = rbrace then scanMode .actBrace rest else scanMode .act rest
  | .actBrace, c :: rest => if c = rbrace then scanMode .text rest else scanMode .act rest

/-! ## Concrete fixtures for witnesses and counterexamples -/

def env0 : String → String := fun _ => ""

def updateReg0 : List RenderResult → FS → FS := fun _ fs => fs

def render0 : String → (String → Option PVal) → Except String String :=
  fun n _ => if n = "bad" then .error "boom" else .ok ("c-" ++ n)

def tps0 : List TemplateParams :=
  [⟨"good", fun _ => none⟩, ⟨"bad", fun _ => none⟩]

def cfgDry : RenderConfig := { OutputDir := "out", DryRun := true }

def c1ra : RenderResult := { TemplateName := "a", Error := some "boom" }

def c1rb : RenderResult := { TemplateName := "b", ResourceName := "rb", Content := "x" }

def c1Results : List RenderResult := [c1ra, c1rb]

def outCfg1 : OutputConfig := ⟨"out", "", true, false⟩

def regW : ClaimRegistry :=
  { APIVersion := "claim-registry.io/v1alpha1", Kind := "ClaimRegistry",
    Claims := [{ Name := "a" }, { Name := "b" }] }

def entW1 : ClaimEntry := { Name := "b", Template := "t1" }

def entW2 : ClaimEntry := { Name := "b", Template := "t2" }

def envW : String → String := fun k => if k = "GITHUB_TOKEN" then "ghtok" else ""

def fW : String → Option String :=
  fun k => if k = "cpu" then some "2" else if k = "mem" then some "4Gi" else none

def iW : String → Option String := fun k => if k = "cpu" then some "8" else none

def c5ra : RenderResult := { TemplateName := "x", Content := "a\n---\nb" }

def c5rb : RenderResult := { TemplateName := "y", Content := "c" }

def c5Results : List RenderResult := [c5ra, c5rb]

def c5wa : RenderResult := { TemplateName := "x", Content := " p " }

def c5wb : RenderResult := { TemplateName := "bad", Error := some "e" }

def c5wc : RenderResult := { TemplateName := "y", Content := "q" }

def c5Clean : List RenderResult := [c5wa, c5wb, c5wc]

def res7 : RenderResult :=
  { TemplateName := "volumeclaim-simple", ResourceName := "test-volume",
    Content := "kind: Claim", OutputPath := "out/volumeclaim-simple-test-volume.yaml" }

def cfg7 : RenderConfig := { OutputDir := "out", GitConfig := some { Commit := true } }

def c10r : RenderResult := { TemplateName := "x", Content := "c" }

def outCfgS : OutputConfig := ⟨"out", "", true, false⟩

def c10fs : FS :=
  ⟨["out"], [(joinPath outCfgS.Directory (singleFileName [c10r]), combineContents [c10r])]⟩

def cfgG : RenderConfig := { OutputDir := "out", GitConfig := some { Commit := true } }

theorem startsTriple_head_ne {c : Char} (h : c ≠ '-') (l : List Char) :
    startsTriple (c :: l) = false := by
  match l with
  | [] => rfl
  | [b] => rfl
  | b :: d :: t => simp [startsTriple, h]

theorem countTriple_append_newline (xs ys : List Char) :
    countTriple (xs ++ '\n' :: ys) = countTriple xs + countTriple ys := by
  induction xs with
  | nil =>
      simp [countTriple, startsTriple_head_ne (by decide : ('\n' : Char) ≠ '-')]
  | cons x xs ih =>
      have hs : startsTriple (x :: (xs ++ '\n' :: ys)) = startsTriple (x :: xs) := by
        match xs with
        | [] =>
            match ys with
            | [] => simp [startsTriple]
            | z :: t => simp [startsTriple]
        | [b] =>
            match ys with
            | [] => simp [startsTriple]
            | z :: t => simp [startsTriple]
        | b :: d :: t => rfl
      show (if startsTriple (x :: (xs ++ '\n' :: ys)) then 1 else 0) +
          countTriple (xs ++ '\n' :: ys) =
        ((if startsTriple (x :: xs) then 1 else 0) + countTriple xs) + countTriple ys
      rw [hs, ih]
      omega

theorem sepOnly_append {f g : List Char} (hf : sepOnly f) (hg : sepOnly g) :
    sepOnly (f ++ g) := by
  intro c hc
  rcases List.mem_append.1 hc with h | h
  · exact hf c h
  · exact hg c h

theorem sepOnly_sepStr : sepOnly sepStr := by
  intro c hc
  fin_cases hc <;> simp

theorem sepOnly_nl : sepOnly ['\n'] := by
  intro c hc
  fin_cases hc
  simp

theorem sepOnly_nil : sepOnly ([] : List Char) := by
  intro c hc
  cases hc

theorem okBackend_ok : BackendOk okBackend :=
  ⟨fun _ => ⟨_, rfl⟩, fun _ => ⟨_, rfl⟩, fun _ => rfl, fun _ => rfl, fun _ => rfl,
   fun _ => rfl, fun _ _ _ => rfl, fun _ _ => rfl, ⟨_, rfl⟩, rfl⟩

theorem Glued.prepend {ps : List (List Char)} {s : List Char} (f : List Char)
    (hf : sepOnly f) (h : Glued ps s) : Glued ps (f ++ s) := by
  cases h with
  | nil _ hg => exact .nil _ (sepOnly_append hf hg)
  | cons g p rest s2 hg hrest =>
      have he : f ++ (g ++ p ++ s2) = (f ++ g) ++ p ++ s2 := by
        simp [List.append_assoc]
      rw [he]
      exact .cons (f ++ g) p rest s2 (sepOnly_append hf hg) hrest

theorem countTriple_block (acc t : List Char) :
    countTriple (acc ++ sepStr ++ t) = countTriple acc + 1 + countTriple t := by
  have e1 : acc ++ sepStr ++ t = acc ++ '\n' :: (['-', '-', '-'] ++ '\n' :: t) := by
    simp [sepStr]
  rw [e1, countTriple_append_newline, countTriple_append_newline]
  have e2 : countTriple ['-', '-', '-'] = 1 := by decide
  omega

theorem countTriple_snoc_newline (xs : List Char) :
    countTriple (xs ++ ['\n']) = countTriple xs := by
  have e1 : xs ++ ['\n'] = xs ++ '\n' :: [] := rfl
  rw [e1, countTriple_append_newline]
  simp [countTriple]

theorem numSuccess_cons_fail {r : RenderResult} {rest : List RenderResult}
    (hE : r.Error.isSome) : numSuccess (r :: rest) = numSuccess rest := by
  cases h : r.Error with
  | none => rw [h] at hE; cases hE
  | some e => simp [numSuccess, h]

theorem numSuccess_cons_ok {r : RenderResult} {rest : List RenderResult}
    (hE : r.Error = none) : numSuccess (r :: rest) = numSuccess rest + 1 := by
  simp [numSuccess, hE]

/-- With a nonempty builder, every remaining success contributes exactly
one separator (given contents free of `---`). -/
theorem combineAux_count_ne (rest : List RenderResult) :
    ∀ (acc : List Char), acc ≠ [] →
    (∀ r ∈ rest, r.Error = none → countTriple (trimSpace r.Content) = 0) →
    ∀ (i n : Nat),
    countTriple (combineAux n acc i rest) = countTriple acc + numSuccess rest := by
  induction rest with
  | nil =>
      intro acc _ _ i n
      simp [combineAux, numSuccess]
  | cons r rest ih =>
      intro acc hne hclean i n
      cases hE : r.Error with
      | some e =>
          have hstep : combineAux n acc i (r :: rest) = combineAux n acc (i + 1) rest := by
            simp [combineAux, hE]
          rw [hstep, ih acc hne (fun r2 h2 => hclean r2 (List.mem_cons_of_mem _ h2)) (i + 1) n,
            numSuccess_cons_fail (by simp [hE])]
      | none =>
          have hlt : acc.length > 0 := List.length_pos.mpr hne
          have h0 : countTriple (trimSpace r.Content) = 0 :=
            hclean r (List.mem_cons_self _ _) hE
          have hclean2 : ∀ r2 ∈ rest, r2.Error = none → countTriple (trimSpace r2.Content) = 0 :=
            fun r2 h2 => hclean r2 (List.mem_cons_of_mem _ h2)
          by_cases hi : i < n - 1
          · have hstep : combineAux n acc i (r :: rest) =
                combineAux n ((acc ++ sepStr ++ trimSpace r.Content) ++ ['\n']) (i + 1) rest := by
              simp [combineAux, hE, hlt, hi]
            rw [hstep, ih _ (by simp) hclean2 (i + 1) n, countTriple_snoc_newline,
              countTriple_block, numSuccess_cons_ok hE]
            omega
          · have hstep : combineAux n acc i (r :: rest) =
                combineAux n (acc ++ sepStr ++ trimSpace r.Content) (i + 1) rest := by
              simp [combineAux, hE, hlt, hi]
            rw [hstep, ih _ (by simp [sepStr]) hclean2 (i + 1) n,
              countTriple_block, numSuccess_cons_ok hE]
            omega

/-- Starting from an empty builder at the correct index, the combined
string contains one separator fewer than the number of successes. -/
theorem combineAux_count_emp (rest : List RenderResult) :
    ∀ (i n : Nat), i + rest.length = n →
    (∀ r ∈ rest, r.Error = none → countTriple (trimSpace r.Content) = 0) →
    countTriple (combineAux n [] i rest) = numSuccess rest - 1 := by
  induction rest with
  | nil =>
      intro i n _ _
      simp [combineAux, countTriple, numSuccess]
  | cons r rest ih =>
      intro i n hlen hclean
      have hclean2 : ∀ r2 ∈ rest, r2.Error = none → countTriple (trimSpace r2.Content) = 0 :=
        fun r2 h2 => hclean r2 (List.mem_cons_of_mem _ h2)
      cases hE : r.Error with
      | some e =>
          have hstep : combineAux n [] i (r :: rest) = combineAux n [] (i + 1) rest := by
            simp [combineAux, hE]
          rw [hstep, ih (i + 1) n (by simp at hlen ⊢; omega) hclean2,
            numSuccess_cons_fail (by simp [hE])]
      | none =>
          have h0 : countTriple (trimSpace r.Content) = 0 :=
            hclean r (List.mem_cons_self _ _) hE
          by_cases hi : i < n - 1
          · have hstep : combineAux n [] i (r :: rest) =
                combineAux n (trimSpace r.Content ++ ['\n']) (i + 1) rest := by
              simp [combineAux, hE, hi]
            rw [hstep, combineAux_count_ne rest _ (by simp) hclean2 (i + 1) n,
              countTriple_snoc_newline, h0, numSuccess_cons_ok hE]
            omega
          · have hrest : rest = [] := by
              simp at hlen
              cases rest with
              | nil => rfl
              | cons x t => simp at hlen; omega
            subst hrest
            have hstep : combineAux n [] i [r] =
                combineAux n (trimSpace r.Content) (i + 1) [] := by
              simp [combineAux, hE, hi]
            rw [hstep]
            simp [combineAux, h0, numSuccess, hE]

theorem glued_mid {parts : List (List Char)} {sfx : List Char} (t : List Char)
    (h2 : Glued parts sfx) (f tail : List Char) (hf : sepOnly f)
    (htail : sepOnly tail) : Glued (t :: parts) ((f ++ t ++ tail) ++ sfx) := by
  have he : (f ++ t ++ tail) ++ sfx = f ++ t ++ (tail ++ sfx) := by
    simp [List.append_assoc]
  rw [he]
  exact .cons f t parts (tail ++ sfx) hf (Glued.prepend tail htail h2)

theorem successContentsL_cons_fail {r : RenderResult} {rest : List RenderResult}
    (hE : r.Error.isSome) : successContentsL (r :: rest) = successContentsL rest := by
  cases h : r.Error with
  | none => rw [h] at hE; cases hE
  | some e => simp [successContentsL, h]

theorem successContentsL_cons_ok {r : RenderResult} {rest : List RenderResult}
    (hE : r.Error = none) :
    successContentsL (r :: rest) = trimSpace r.Content :: successContentsL rest := by
  simp [successContentsL, hE]

/-- The combined string is exactly the trimmed successful contents, in
their original order, interleaved with filler made only of newline and
dash characters. -/
theorem combineAux_glued (rest : List RenderResult) :
    ∀ (acc : List Char) (i n : Nat),
    ∃ sfx, combineAux n acc i rest = acc ++ sfx ∧ Glued (successContentsL rest) sfx := by
  induction rest with
  | nil =>
      intro acc i n
      exact ⟨[], by simp [combineAux], .nil [] sepOnly_nil⟩
  | cons r rest ih =>
      intro acc i n
      cases hE : r.Error with
      | some e =>
          obtain ⟨sfx, h1, h2⟩ := ih acc (i + 1) n
          refine ⟨sfx, ?_, ?_⟩
          · rw [← h1]; simp [combineAux, hE]
          · rw [successContentsL_cons_fail (by simp [hE])]; exact h2
      | none =>
          by_cases hlen : acc.length > 0 <;> by_cases hi : i < n - 1
          · obtain ⟨sfx, h1, h2⟩ := ih ((acc ++ sepStr ++ trimSpace r.Content) ++ ['\n']) (i + 1) n
            refine ⟨(sepStr ++ trimSpace r.Content ++ ['\n']) ++ sfx, ?_, ?_⟩
            · have hstep : combineAux n acc i (r :: rest) =
                  combineAux n ((acc ++ sepStr ++ trimSpace r.Content) ++ ['\n']) (i + 1) rest := by
                simp [combineAux, hE, hlen, hi]
              rw [hstep, h1]; simp [List.append_assoc]
            · rw [successContentsL_cons_ok hE]
              exact glued_mid _ h2 sepStr ['\n'] sepOnly_sepStr sepOnly_nl
          · obtain ⟨sfx, h1, h2⟩ := ih (acc ++ sepStr ++ trimSpace r.Content) (i + 1) n
            refine ⟨(sepStr ++ trimSpace r.Content ++ []) ++ sfx, ?_, ?_⟩
            · have hstep : combineAux n acc i (r :: rest) =
                  combineAux n (acc ++ sepStr ++ trimSpace r.Content) (i + 1) rest := by
                simp [combineAux, hE, hlen, hi]
              rw [hstep, h1]; simp [List.append_assoc]
            · rw [successContentsL_cons_ok hE]
              exact glued_mid _ h2 sepStr [] sepOnly_sepStr sepOnly_nil
          · obtain ⟨sfx, h1, h2⟩ := ih ((acc ++ trimSpace r.Content) ++ ['\n']) (i + 1) n
            refine ⟨(([] : List Char) ++ trimSpace r.Content ++ ['\n']) ++ sfx, ?_, ?_⟩
            · have hacc : acc = [] := by
                cases acc with
                | nil => rfl
                | cons a t => simp at hlen
              subst hacc
              have hstep : combineAux n [] i (r :: rest) =
                  combineAux n (([] ++ trimSpace r.Content) ++ ['\n']) (i + 1) rest := by
                simp [combineAux, hE, hi]
              rw [hstep, h1]; simp [List.append_assoc]
            · rw [successContentsL_cons_ok hE]
              exact glued_mid _ h2 [] ['\n'] sepOnly_nil sepOnly_nl
          · obtain ⟨sfx, h1, h2⟩ := ih (acc ++ trimSpace r.Content) (i + 1) n
            refine ⟨(([] : List Char) ++ trimSpace r.Content ++ []) ++ sfx, ?_, ?_⟩
            · have hacc : acc = [] := by
                cases acc with
                | nil => rfl
                | cons a t => simp at hlen
              subst hacc
              have hstep : combineAux n [] i (r :: rest) =
                  combineAux n ([] ++ trimSpace r.Content) (i + 1) rest := by
                simp [combineAux, hE, hi]
              rw [hstep, h1]; simp [List.append_assoc]
            · rw [successContentsL_cons_ok hE]
              exact glued_mid _ h2 [] [] sepOnly_nil sepOnly_nil

/-! ## Helper lemmas -/

theorem renderLoop_length (render : String → (String → Option PVal) → Except String String) :
    ∀ tps, (renderLoop render tps).length = tps.length := by
  intro tps
  induction tps with
  | nil => rfl
  | cons tp rest ih => simp [renderLoop, ih]

theorem renderLoop_get (render : String → (String → Option PVal) → Except String String) :
    ∀ (tps : List TemplateParams) (i : Nat), i < tps.length →
    ∃ tp, tps.get? i = some tp ∧ (renderLoop render tps).get? i = some (renderOne render tp) := by
  intro tps
  induction tps with
  | nil => intro i h; simp at h
  | cons tp rest ih =>
      intro i h
      cases i with
      | zero => exact ⟨tp, rfl, rfl⟩
      | succ j =>
          obtain ⟨tp2, h1, h2⟩ := ih j (by simp at h; omega)
          exact ⟨tp2, h1, h2⟩

theorem renderOne_props (render : String → (String → Option PVal) → Except String String)
    (tp : TemplateParams) :
    (renderOne render tp).TemplateName = tp.Name
    ∧ (∀ e, render tp.Name tp.Parameters = .error e →
        (renderOne render tp).Error = some e ∧ (renderOne render tp).Content = ""
        ∧ (renderOne render tp).OutputPath = "")
    ∧ (∀ c, render tp.Name tp.Parameters = .ok c →
        (renderOne render tp).Error = none ∧ (renderOne render tp).Content = c) := by
  cases h : render tp.Name tp.Parameters with
  | error e => simp [renderOne, h]
  | ok c => simp [renderOne, h]

theorem joinPath_ne_empty (d f : String) : joinPath d f ≠ "" := by
  intro h
  have h2 := congrArg String.length h
  simp [joinPath] at h2
  exact absurd h2.1.2 (by decide)

theorem writeSeparateFiles_marks (o : IOOracle) (cfg : OutputConfig) :
    ∀ (results : List RenderResult) (fs fs1 : FS) (results1 : List RenderResult),
    writeSeparateFiles o cfg fs results = .ok (fs1, results1) →
    ∀ r ∈ results1, r.Error = none → r.OutputPath ≠ "" := by
  intro results
  induction results with
  | nil =>
      intro fs fs1 results1 h
      simp [writeSeparateFiles] at h
      rcases h with ⟨h1, h2⟩
      subst h2
      intro r hr
      simp at hr
  | cons x rest ih =>
      intro fs fs1 results1 h r hr hE
      unfold writeSeparateFiles at h
      split at h
      · split at h
        · cases h
        · next fs2 rs heq =>
            injection h with h3
            injection h3 with h4 h5
            subst h5
            rcases List.mem_cons.1 hr with h6 | h6
            · subst h6
              rename_i hcond
              rw [hE] at hcond
              cases hcond
            · exact ih _ _ _ heq r h6 hE
      · split at h
        · cases h
        · dsimp only at h
          split at h
          · cases h
          · split at h
            · cases h
            · next fs3 rs heq =>
                injection h with h3
                injection h3 with h4 h5
                subst h5
                rcases List.mem_cons.1 hr with h6 | h6
                · subst h6
                  exact joinPath_ne_empty _ _
                · exact ih _ _ _ heq r h6 hE

theorem commitMsgs_append (t1 t2 : List GitAction) :
    commitMsgs (t1 ++ t2) = commitMsgs t1 ++ commitMsgs t2 := by
  simp [commitMsgs]

theorem acquireRepo_ok (gc : GitConfig) (outputDir : String) (b : GitBackend)
    (hb : BackendOk b) :
    ∃ rp acts, acquireRepo gc outputDir b = .ok (rp, acts) ∧ commitMsgs acts = [] := by
  unfold acquireRepo
  by_cases hurl : gc.RepoURL ≠ ""
  · obtain ⟨d, hd⟩ := hb.1 gc.RepoURL
    refine ⟨d, [GitAction.clone gc.RepoURL], ?_, ?_⟩
    · simp [hurl, hd]
    · simp [commitMsgs]
  · obtain ⟨root, hroot⟩ := hb.2.1 outputDir
    have hopen := hb.2.2.1 root
    refine ⟨root, [GitAction.openRepo root], ?_, ?_⟩
    · simp [hurl, hroot, hopen]
    · simp [commitMsgs]

theorem branchStep_ok (gc : GitConfig) (b : GitBackend) (hb : BackendOk b) :
    ∃ acts, branchStep gc b = .ok acts ∧ commitMsgs acts = [] := by
  unfold branchStep
  by_cases hcb : gc.CreateBranch = true
  · by_cases hbr : gc.Branch = ""
    · refine ⟨[], ?_, by simp [commitMsgs]⟩
      simp [hcb, hbr]
    · refine ⟨[GitAction.createBranch gc.Branch], ?_, by simp [commitMsgs]⟩
      simp [hcb, hbr, hb.2.2.2.1 gc.Branch]
  · by_cases hbr : gc.Branch = ""
    · refine ⟨[], ?_, by simp [commitMsgs]⟩
      simp [hcb, hbr]
    · refine ⟨[GitAction.checkoutBranch gc.Branch], ?_, by simp [commitMsgs]⟩
      simp [hcb, hbr, hb.2.2.2.2.1 gc.Branch]

theorem pushStep_ok (gc : GitConfig) (prc : Option PRConfig) (b : GitBackend)
    (acts : List GitAction) (hb : BackendOk b) :
    ∃ acts2, pushStep gc prc b acts = .ok acts2 ∧ commitMsgs acts2 = commitMsgs acts := by
  obtain ⟨curb, hcurb⟩ := hb.2.2.2.2.2.2.2.2.1
  have hpush := hb.2.2.2.2.2.2.2.1
  have hpr := hb.2.2.2.2.2.2.2.2.2
  unfold pushStep
  have hbr : (if gc.Branch = "" then b.currentBranchR else .ok gc.Branch) =
      .ok (if gc.Branch = "" then curb else gc.Branch) := by
    by_cases h : gc.Branch = "" <;> simp [h, hcurb]
  rw [hbr]
  cases prc with
  | none =>
      refine ⟨acts ++ [GitAction.push (if gc.Remote = "" then "origin" else gc.Remote)
        (if gc.Branch = "" then curb else gc.Branch)], ?_, ?_⟩
      · simp [hpush]
      · simp [commitMsgs_append, commitMsgs]
  | some pr =>
      by_cases hcr : pr.Create = true
      · refine ⟨(acts ++ [GitAction.push (if gc.Remote = "" then "origin" else gc.Remote)
          (if gc.Branch = "" then curb else gc.Branch)]) ++ [GitAction.createPR], ?_, ?_⟩
        · simp [hpush, hcr, hpr]
        · simp [commitMsgs_append, commitMsgs]
      · refine ⟨acts ++ [GitAction.push (if gc.Remote = "" then "origin" else gc.Remote)
          (if gc.Branch = "" then curb else gc.Branch)], ?_, ?_⟩
        · simp [hpush, hcr]
        · simp [commitMsgs_append, commitMsgs]

theorem addEntryList_twice (e1 e2 : ClaimEntry) (hname : e1.Name = e2.Name) :
    ∀ l, addEntryList (addEntryList l e1) e2 = addEntryList l e2 := by
  intro l
  induction l with
  | nil => simp [addEntryList, hname]
  | cons x rest ih =>
      by_cases hx : x.Name = e1.Name
      · have hx2 : x.Name = e2.Name := hx.trans hname
        simp [addEntryList, hx, hx2, hname]
      · have hx2 : ¬x.Name = e2.Name := by rw [← hname]; exact hx
        simp [addEntryList, hx, hx2, ih]

theorem addEntryList_length_eq (e1 e2 : ClaimEntry) (hname : e1.Name = e2.Name) :
    ∀ l, (addEntryList l e1).length = (addEntryList l e2).length := by
  intro l
  induction l with
  | nil => rfl
  | cons x rest ih =>
      by_cases hx : x.Name = e1.Name
      · have hx2 : x.Name = e2.Name := hx.trans hname
        simp [addEntryList, hx, hx2, hname]
      · have hx2 : ¬x.Name = e2.Name := by rw [← hname]; exact hx
        simp [addEntryList, hx, hx2, ih]

theorem removeEntryList_absent (n : String) :
    ∀ l : List ClaimEntry, (∀ x ∈ l, x.Name ≠ n) → removeEntryList l n = none := by
  intro l
  induction l with
  | nil => intro _; rfl
  | cons x rest ih =>
      intro h
      have hx : ¬x.Name = n := h x (List.mem_cons_self _ _)
      simp [removeEntryList, hx, ih (fun y hy => h y (List.mem_cons_of_mem _ hy))]

/-- A pattern whose scan ends inside an action makes the interpreter
error, from any starting mode and accumulator: either the unclosed
action is reached (unterminated-action error) or an earlier action body
is already rejected. -/
theorem execGo_unterminated (info : FileInfo) :
    ∀ (l : List Char) (m : TMode) (acc : List Char),
    (scanMode m l = .act ∨ scanMode m l = .actBrace) →
    ∃ e, execGo info m acc l = .error e := by
  intro l
  induction l with
  | nil =>
      intro m acc h
      cases m with
      | text => rcases h with h | h <;> simp [scanMode] at h
      | textBrace => rcases h with h | h <;> simp [scanMode] at h
      | act => exact ⟨"unclosed action", rfl⟩
      | actBrace => exact ⟨"unclosed action", rfl⟩
  | cons c rest ih =>
      intro m acc h
      cases m with
      | text =>
          by_cases hc : c = lbrace
          · have hs : scanMode .text (c :: rest) = scanMode .textBrace rest := by
              simp [scanMode, hc]
            rw [hs] at h
            obtain ⟨e, he⟩ := ih .textBrace acc h
            exact ⟨e, by simp [execGo, hc, he, Except.map]⟩
          · have hs : scanMode .text (c :: rest) = scanMode .text rest := by
              simp [scanMode, hc]
            rw [hs] at h
            obtain ⟨e, he⟩ := ih .text acc h
            exact ⟨e, by simp [execGo, hc, he, Except.map]⟩
      | textBrace =>
          by_cases hc : c = lbrace
          · have hs : scanMode .textBrace (c :: rest) = scanMode .act rest := by
              simp [scanMode, hc]
            rw [hs] at h
            obtain ⟨e, he⟩ := ih .act [] h
            exact ⟨e, by simp [execGo, hc, he, Except.map]⟩
          · have hs : scanMode .textBrace (c :: rest) = scanMode .text rest := by
              simp [scanMode, hc]
            rw [hs] at h
            obtain ⟨e, he⟩ := ih .text acc h
            exact ⟨e, by simp [execGo, hc, he, Except.map]⟩
      | act =>
          by_cases hc : c = rbrace
          · have hs : scanMode .act (c :: rest) = scanMode .actBrace rest := by
              simp [scanMode, hc]
            rw [hs] at h
            obtain ⟨e, he⟩ := ih .actBrace acc h
            exact ⟨e, by simp [execGo, hc, he, Except.map]⟩
          · have hs : scanMode .act (c :: rest) = scanMode .act rest := by
              simp [scanMode, hc]
            rw [hs] at h
            obtain ⟨e, he⟩ := ih .act (c :: acc) h
            exact ⟨e, by simp [execGo, hc, he, Except.map]⟩
      | actBrace =>
          by_cases hc : c = rbrace
          · cases hsub : substAction info acc.reverse with
            | error e => exact ⟨e, by simp [execGo, hc, hsub]⟩
            | ok v =>
                have hs : scanMode .actBrace (c :: rest) = scanMode .text rest := by
                  simp [scanMode, hc]
                rw [hs] at h
                obtain ⟨e, he⟩ := ih .text [] h
                exact ⟨e, by simp [execGo, hc, hsub, he, Except.map]⟩
          · have hs : scanMode .actBrace (c :: rest) = scanMode .act rest := by
              simp [scanMode, hc]
            rw [hs] at h
            obtain ⟨e, he⟩ := ih .act (c :: rbrace :: acc) h
            exact ⟨e, by simp [execGo, hc, he, Except.map]⟩

theorem resolveStep_ok (gc : GitConfig) (env : String → String)
    (hpushc : gc.Push = true → ∃ c, ResolveCredentials env gc.User gc.Token = .ok c) :
    ∃ p, resolveStep gc.Push env gc.User gc.Token = .ok p := by
  by_cases hp : gc.Push = true
  · obtain ⟨c, hc⟩ := hpushc hp
    exact ⟨c, by simp [resolveStep, hp, hc]⟩
  · have hp2 : gc.Push = false := by simpa using hp
    exact ⟨ResolveCredentialsOptional env gc.User gc.Token, by simp [resolveStep, hp2]⟩

/-- With a commit (or push) requested, resolvable credentials, a working
backend and at least one collected file path, the git stage succeeds and
commits exactly once, with the (possibly defaulted) message. -/
theorem executeGitOperations_commit (results : List RenderResult)
    (config : RenderConfig) (env : String → String) (b : GitBackend) (gc : GitConfig)
    (hgc : config.GitConfig = some gc) (hcommit : gc.Commit = true)
    (hpushc : gc.Push = true → ∃ c, ResolveCredentials env gc.User gc.Token = .ok c)
    (hb : BackendOk b) (hfiles : collectFilePaths results ≠ []) :
    ∃ trace, executeGitOperations results config env b = .ok trace ∧
      commitMsgs trace = [defaultMessage gc.Message results] := by
  obtain ⟨⟨user, tok⟩, hres⟩ := resolveStep_ok gc env hpushc
  obtain ⟨rp, acts0, hacq, hm0⟩ := acquireRepo_ok gc config.OutputDir b hb
  obtain ⟨acts1, hbs, hm1⟩ := branchStep_ok gc b hb
  have hadd := hb.2.2.2.2.2.1
  have hcm := hb.2.2.2.2.2.2.1
  have hne : (collectFilePaths results).isEmpty = false := by
    cases hcp : collectFilePaths results with
    | nil => exact absurd hcp hfiles
    | cons a t => rfl
  by_cases hp : gc.Push = true
  · obtain ⟨acts3, hps, hm3⟩ := pushStep_ok gc config.PRConfig b
      (acts0 ++ (acts1 ++
        [GitAction.addFiles (if b.statR (joinPath (joinPath rp "claims") "registry.yaml")
            then collectFilePaths results ++ [joinPath (joinPath rp "claims") "registry.yaml"]
            else collectFilePaths results),
         GitAction.commit (defaultMessage gc.Message results)
           (commitSignature user "").1 (commitSignature user "").2])) hb
    have hres2 : resolveStep true env gc.User gc.Token = Except.ok (user, tok) := by
      rw [← hp]; exact hres
    refine ⟨acts3, ?_, ?_⟩
    · simp [executeGitOperations, hgc, hcommit, hres2, hacq, hbs, hne, hadd, hcm, hp, hps]
    · rw [hm3, commitMsgs_append, commitMsgs_append, hm0, hm1]
      simp [commitMsgs]
  · have hp2 : gc.Push = false := by simpa using hp
    have hres3 : resolveStep false env gc.User gc.Token = Except.ok (user, tok) := by
      rw [← hp2]; exact hres
    refine ⟨acts0 ++ (acts1 ++
      [GitAction.addFiles (if b.statR (joinPath (joinPath rp "claims") "registry.yaml")
          then collectFilePaths results ++ [joinPath (joinPath rp "claims") "registry.yaml"]
          else collectFilePaths results),
       GitAction.commit (defaultMessage gc.Message results)
         (commitSignature user "").1 (commitSignature user "").2]), ?_, ?_⟩
    · simp [executeGitOperations, hgc, hcommit, hres3, hacq, hbs, hne, hadd, hcm, hp]
    · rw [commitMsgs_append, commitMsgs_append, hm0, hm1]
      simp [commitMsgs]

/-- With no result carrying an output path, the git stage fails with the
no-files-to-commit error (the combined file may well exist on disk). -/
theorem executeGitOperations_no_files (results : List RenderResult)
    (config : RenderConfig) (env : String → String) (b : GitBackend) (gc : GitConfig)
    (hgc : config.GitConfig = some gc) (hcommit : gc.Commit = true)
    (hpushc : gc.Push = true → ∃ c, ResolveCredentials env gc.User gc.Token = .ok c)
    (hb : BackendOk b) (hempty : ∀ r ∈ results, r.OutputPath = "") :
    executeGitOperations results config env b = .error "no files to commit" := by
  obtain ⟨⟨user, tok⟩, hres⟩ := resolveStep_ok gc env hpushc
  obtain ⟨rp, acts0, hacq, hm0⟩ := acquireRepo_ok gc config.OutputDir b hb
  obtain ⟨acts1, hbs, hm1⟩ := branchStep_ok gc b hb
  have hcoll : collectFilePaths results = [] := by
    unfold collectFilePaths
    have hfil : results.filter (fun r => r.OutputPath ≠ "" && r.Error.isNone) = [] := by
      rw [List.filter_eq_nil_iff]
      intro r hr
      simp [hempty r hr]
    rw [hfil]
    rfl
  have hne : (collectFilePaths results).isEmpty = true := by rw [hcoll]; rfl
  simp [executeGitOperations, hgc, hcommit, hres, hacq, hbs, hne]

/-! ## Claims -/

/-- C1, counterexample: on a list whose first result failed (template
`a`) and whose first successful result has template `b`, `writeSingleFile`
names the combined file after `a`, not after the first successful
result's template name `b` — refuting the claim as stated. -/
theorem writeSingleFile_name_ignores_success :
    (writeSingleFile okOracle fs0 c1Results outCfg1).toOption.map
        (fun p => p.1.files.map Prod.fst) = some ["out/a-combined.yaml"]
    ∧ (c1Results.find? (fun r => r.Error.isNone)).map (fun r => r.TemplateName) = some "b"
    ∧ ("out/a-combined.yaml" : String) ≠ "out/b-combined.yaml" := by
  refine ⟨by decide, by decide, by decide⟩

/-- C1 (amended): in single-file mode the combined file's name is derived
from the FIRST result's template name, successful or not (with the
`combined-claims.yaml` fallback for an empty list or empty name); the
write leaves the result list untouched. -/
theorem writeSingleFile_uses_first_result_name (o : IOOracle) (fs : FS)
    (r : RenderResult) (rest : List RenderResult) (cfg : OutputConfig)
    (hname : r.TemplateName ≠ "")
    (hw : o.writeErr (joinPath cfg.Directory (r.TemplateName ++ "-combined.yaml")) = none) :
    writeSingleFile o fs (r :: rest) cfg =
      .ok ({ fs with files := (setFile fs.files
          (joinPath cfg.Directory (r.TemplateName ++ "-combined.yaml"))
          (combineContents (r :: rest))) }, r :: rest) := by
  unfold writeSingleFile singleFileName
  simp [hname, writeFileFS, hw]

theorem writeSingleFile_uses_first_result_name_witness :
    ("a" : String) ≠ "" ∧
    writeSingleFile okOracle fs0 c1Results outCfg1 =
      .ok ({ fs0 with files := (setFile fs0.files
          (joinPath outCfg1.Directory ("a" ++ "-combined.yaml"))
          (combineContents c1Results)) }, c1Results) :=
  ⟨by decide,
   writeSingleFile_uses_first_result_name okOracle fs0 c1ra [c1rb] outCfg1 (by decide) rfl⟩

/-- C2, counterexample: the dotless pattern of the claim is rejected by
the template parser with the invalid-pattern error (as Go
`text/template` rejects `template` / `name` actions without a leading
dot), so it returns an error — not `t-n.yaml`, and not any `ok` result. -/
theorem generateFilename_undotted_pattern_errors :
    GenerateFilename "\x7b\x7btemplate\x7d\x7d-\x7b\x7bname\x7d\x7d.yaml" ⟨"t", "n"⟩ =
      .error "invalid filename pattern: unsupported action"
    ∧ GenerateFilename "\x7b\x7btemplate\x7d\x7d-\x7b\x7bname\x7d\x7d.yaml" ⟨"t", "n"⟩ ≠
      .ok "t-n.yaml" :=
  ⟨by decide, by decide⟩

/-- C2 (amended): with the dotted placeholders the code actually supports,
`GenerateFilename` maps the default-style pattern to `t-n.yaml`; the
dotless pattern of the original claim is rejected as malformed for every
input; and every pattern with an unterminated placeholder — a scan that
ends inside an action, wherever in the pattern the unclosed delimiter
sits — returns an error, never a partial or garbage filename. -/
theorem generateFilename_dotted_placeholders :
    GenerateFilename "\x7b\x7b.template\x7d\x7d-\x7b\x7b.name\x7d\x7d.yaml" ⟨"t", "n"⟩ =
      .ok "t-n.yaml"
    ∧ (∀ info : FileInfo,
        GenerateFilename "\x7b\x7btemplate\x7d\x7d-\x7b\x7bname\x7d\x7d.yaml" info =
          .error "invalid filename pattern: unsupported action")
    ∧ (∀ (info : FileInfo) (pattern : String),
        (scanMode .text pattern.toList = .act ∨ scanMode .text pattern.toList = .actBrace) →
        ∃ e, GenerateFilename pattern info = .error e) := by
  refine ⟨by decide, fun info => rfl, ?_⟩
  intro info pattern h
  obtain ⟨e, he⟩ := execGo_unterminated info pattern.toList .text [] h
  refine ⟨"invalid filename pattern: " ++ e, ?_⟩
  unfold GenerateFilename
  rw [he]

theorem generateFilename_dotted_placeholders_witness :
    (scanMode .text (String.toList "claim-\x7b\x7b.name") = TMode.act ∨
      scanMode .text (String.toList "claim-\x7b\x7b.name") = TMode.actBrace)
    ∧ (GenerateFilename "claim-\x7b\x7b.name" ⟨"t", "n"⟩).toOption = none := by
  obtain ⟨e, he⟩ := generateFilename_dotted_placeholders.2.2 ⟨"t", "n"⟩
    "claim-\x7b\x7b.name" (Or.inl (by decide))
  exact ⟨Or.inl (by decide), by rw [he]; rfl⟩

/-- C4: under dry-run, for every configuration (single-file or separate),
every render outcome, every registry updater and every git backend, the
pipeline leaves the filesystem exactly as it was (no file, no output
directory), performs no git action, and never runs the registry update. -/
theorem dry_run_writes_nothing_and_skips_stages
    (render : String → (String → Option PVal) → Except String String)
    (tps : List TemplateParams) (config : RenderConfig) (env : String → String)
    (b : GitBackend) (o : IOOracle) (updateReg : List RenderResult → FS → FS)
    (fs : FS) (hdry : config.DryRun = true) :
    (runNonInteractiveFromRender render tps config env b o updateReg fs).fs = fs
    ∧ (runNonInteractiveFromRender render tps config env b o updateReg fs).gitTrace = []
    ∧ (runNonInteractiveFromRender render tps config env b o updateReg fs).registryRan = false
    ∧ (runNonInteractiveFromRender render tps config env b o updateReg fs).results
        = renderLoop render tps := by
  simp [runNonInteractiveFromRender, WriteResults, outputCfgOf, hdry]

theorem dry_run_writes_nothing_and_skips_stages_witness :
    cfgDry.DryRun = true
    ∧ (runNonInteractiveFromRender render0 tps0 cfgDry env0 okBackend okOracle updateReg0 fs0).fs
        = fs0
    ∧ (runNonInteractiveFromRender render0 tps0 cfgDry env0 okBackend okOracle updateReg0
        fs0).gitTrace = []
    ∧ (runNonInteractiveFromRender render0 tps0 cfgDry env0 okBackend okOracle updateReg0
        fs0).registryRan = false := by
  have h := dry_run_writes_nothing_and_skips_stages render0 tps0 cfgDry env0 okBackend okOracle
    updateReg0 fs0 rfl
  exact ⟨rfl, h.1, h.2.1, h.2.2.1⟩

/-- C6: `AddEntry` twice with the same name replaces rather than
duplicates (the second call is absorbed and the length does not grow),
and `RemoveEntry` of an absent name errors, leaving the registry as is. -/
theorem registry_upsert_and_remove_absent (reg : ClaimRegistry)
    (e1 e2 : ClaimEntry) (n : String) (hname : e1.Name = e2.Name)
    (habsent : ∀ x ∈ reg.Claims, x.Name ≠ n) :
    AddEntry (AddEntry reg e1) e2 = AddEntry reg e2
    ∧ (AddEntry (AddEntry reg e1) e2).Claims.length = (AddEntry reg e1).Claims.length
    ∧ RemoveEntry reg n = .error ("claim \"" ++ n ++ "\" not found in registry") := by
  refine ⟨?_, ?_, ?_⟩
  · simp [AddEntry, addEntryList_twice e1 e2 hname reg.Claims]
  · simp [AddEntry, addEntryList_twice e1 e2 hname reg.Claims,
      addEntryList_length_eq e2 e1 hname.symm reg.Claims]
  · simp [RemoveEntry, removeEntryList_absent n reg.Claims habsent]

theorem registry_upsert_and_remove_absent_witness :
    entW1.Name = entW2.Name
    ∧ AddEntry (AddEntry regW entW1) entW2 = AddEntry regW entW2
    ∧ (AddEntry (AddEntry regW entW1) entW2).Claims.length = (AddEntry regW entW1).Claims.length
    ∧ RemoveEntry regW "zz" = .error ("claim \"" ++ "zz" ++ "\" not found in registry") := by
  have h := registry_upsert_and_remove_absent regW entW1 entW2 "zz" rfl (by decide)
  exact ⟨rfl, h.1, h.2.1, h.2.2⟩

/-- C8: credential resolution precedence — an explicit user/token is used
unchanged; a blank user falls back to `GIT_USER`; a blank token to
`GIT_TOKEN`, then `GITHUB_TOKEN`; the push-path resolver errors exactly
when a field is still blank after the fallbacks while the commit-only
step always proceeds with whatever resolved; and a blank commit author
defaults to the fixed bot identity. -/
theorem credentials_precedence_and_defaults (env : String → String) (u t : String) :
    (u ≠ "" → (ResolveCredentialsOptional env u t).1 = u)
    ∧ (t ≠ "" → (ResolveCredentialsOptional env u t).2 = t)
    ∧ (u = "" → (ResolveCredentialsOptional env u t).1 = env "GIT_USER")
    ∧ (t = "" → env "GIT_TOKEN" ≠ "" →
        (ResolveCredentialsOptional env u t).2 = env "GIT_TOKEN")
    ∧ (t = "" → env "GIT_TOKEN" = "" →
        (ResolveCredentialsOptional env u t).2 = env "GITHUB_TOKEN")
    ∧ (((ResolveCredentialsOptional env u t).1 = "" ∨
          (ResolveCredentialsOptional env u t).2 = "") →
        ResolveCredentials env u t =
          .error "git credentials required: set --git-user/--git-token or GIT_USER/GIT_TOKEN environment variables")
    ∧ ((ResolveCredentialsOptional env u t).1 ≠ "" →
        (ResolveCredentialsOptional env u t).2 ≠ "" →
        ResolveCredentials env u t = .ok (ResolveCredentialsOptional env u t))
    ∧ resolveStep false env u t = .ok (ResolveCredentialsOptional env u t)
    ∧ commitSignature "" "" = ("claims-cli", "claims-cli@automated") := by
  refine ⟨?_, ?_, ?_, ?_, ?_, ?_, ?_, rfl, rfl⟩
  · intro hu
    simp [ResolveCredentialsOptional, hu]
  · intro ht
    simp [ResolveCredentialsOptional, ht]
  · intro hu
    simp [ResolveCredentialsOptional, hu]
  · intro ht h2
    simp [ResolveCredentialsOptional, ht, h2]
  · intro ht h2
    simp [ResolveCredentialsOptional, ht, h2]
  · intro h
    simp [ResolveCredentialsOptional] at h
    simp [ResolveCredentials, h]
  · intro h1 h2
    simp [ResolveCredentialsOptional] at h1 h2
    simp [ResolveCredentials, ResolveCredentialsOptional, h1, h2]

theorem credentials_precedence_and_defaults_witness :
    ("" : String) = "" ∧ envW "GIT_TOKEN" = "" ∧
    (ResolveCredentialsOptional envW "alice" "").2 = envW "GITHUB_TOKEN" ∧
    ("alice" : String) ≠ "" ∧ (ResolveCredentialsOptional envW "alice" "").1 = "alice" :=
  ⟨rfl, rfl, (credentials_precedence_and_defaults envW "alice" "").2.2.2.2.1 rfl rfl,
   by decide, (credentials_precedence_and_defaults envW "alice" "").1 (by decide)⟩

/-- C9: merging inline parameters into file parameters lets inline win on
every colliding key, leaves file-only keys intact, and merging the same
inline map twice equals merging it once. -/
theorem mergeParams_inline_precedence {α : Type} (f i : String → Option α) :
    (∀ k v, i k = some v → MergeParams f i k = some v)
    ∧ (∀ k, i k = none → MergeParams f i k = f k)
    ∧ MergeParams (MergeParams f i) i = MergeParams f i := by
  refine ⟨?_, ?_, ?_⟩
  · intro k v h
    simp [MergeParams, h]
  · intro k h
    simp [MergeParams, h]
  · funext k
    unfold MergeParams
    cases i k with
    | none => rfl
    | some v => rfl

/-- C3: the non-interactive batch produces exactly one result per
requested template in order (on a render failure the error is stored,
content and output path stay empty, and the loop continues with the next
template); writing then proceeds for the successful subset (in separate
mode every successful result gets an output path recorded); and — when
the write and git stages themselves succeed — the run returns the
batch-failure error precisely when at least one template failed to
render. -/
theorem render_batch_isolation_and_status
    (render : String → (String → Option PVal) → Except String String)
    (tps : List TemplateParams) (config : RenderConfig) (env : String → String)
    (b : GitBackend) (o : IOOracle) (updateReg : List RenderResult → FS → FS)
    (fs fs1 : FS) (results1 : List RenderResult) (trace : List GitAction)
    (hw : WriteResults o fs (renderLoop render tps) (outputCfgOf config) = .ok (fs1, results1))
    (hg : config.DryRun = false → executeGitOperations results1 config env b = .ok trace) :
    (renderLoop render tps).length = tps.length
    ∧ (∀ i, i < tps.length → ∃ tp r, tps.get? i = some tp ∧
        (renderLoop render tps).get? i = some r ∧
        r.TemplateName = tp.Name
        ∧ (∀ e, render tp.Name tp.Parameters = .error e →
            r.Error = some e ∧ r.Content = "" ∧ r.OutputPath = "")
        ∧ (∀ c, render tp.Name tp.Parameters = .ok c → r.Error = none ∧ r.Content = c))
    ∧ (config.DryRun = false → config.SingleFile = false →
        ∀ r ∈ results1, r.Error = none → r.OutputPath ≠ "")
    ∧ ((runNonInteractiveFromRender render tps config env b o updateReg fs).ret =
        if (renderLoop render tps).any (fun r => r.Error.isSome)
        then some "some templates failed to render" else none) := by
  refine ⟨renderLoop_length render tps, ?_, ?_, ?_⟩
  · intro i hi
    obtain ⟨tp, h1, h2⟩ := renderLoop_get render tps i hi
    obtain ⟨p1, p2, p3⟩ := renderOne_props render tp
    exact ⟨tp, renderOne render tp, h1, h2, p1, p2, p3⟩
  · intro hdry hsingle r hr hE
    unfold WriteResults at hw
    simp [outputCfgOf, hdry, hsingle] at hw
    cases hmk : mkdirAllFS o fs config.OutputDir with
    | error e => rw [hmk] at hw; cases hw
    | ok fs2 =>
        rw [hmk] at hw
        exact writeSeparateFiles_marks o _ _ _ _ _ hw r hr hE
  · by_cases hdry : config.DryRun = true
    · simp [runNonInteractiveFromRender, hw, hdry]
    · have hdry2 : config.DryRun = false := by simpa using hdry
      simp [runNonInteractiveFromRender, hw, hdry2, hg hdry2]

theorem render_batch_isolation_and_status_witness :
    (renderLoop render0 tps0).length = tps0.length
    ∧ (runNonInteractiveFromRender render0 tps0 cfgDry env0 okBackend okOracle updateReg0
        fs0).ret = some "some templates failed to render" := by
  have h := render_batch_isolation_and_status render0 tps0 cfgDry env0 okBackend okOracle
    updateReg0 fs0 fs0 (renderLoop render0 tps0) [] rfl
    (fun hcontra => absurd hcontra (by decide))
  refine ⟨h.1, ?_⟩
  rw [h.2.2.2]
  rfl

/-- C5, counterexample: with two successful results whose first content
itself contains the `---` marker, the combined output contains two
occurrences of `---`, not `N_success - 1 = 1` — refuting the claim as
stated for arbitrary contents. -/
theorem separator_count_fails_on_embedded_marker :
    countTriple (combineContents c5Results).data ≠ numSuccess c5Results - 1 := by
  decide

/-- C5 (amended): provided no successful artifact's trimmed content
itself contains `---`, the single-file output contains exactly
`N_success - 1` occurrences of the separator, and it consists of exactly
the trimmed successful contents, in their original input order,
interleaved with filler made only of newline and dash characters — so
failed results contribute no content. -/
theorem single_file_output_shape (results : List RenderResult)
    (hclean : ∀ r ∈ results, r.Error = none → countTriple (trimSpace r.Content) = 0) :
    countTriple (combineContents results).data = numSuccess results - 1
    ∧ Glued (successContentsL results) (combineContents results).data := by
  constructor
  · exact combineAux_count_emp results 0 results.length (by omega) hclean
  · obtain ⟨sfx, h1, h2⟩ := combineAux_glued results [] 0 results.length
    have h3 : (combineContents results).data = sfx := by
      show combineAux results.length [] 0 results = sfx
      rw [h1]
      exact List.nil_append sfx
    rw [h3]
    exact h2

theorem single_file_output_shape_witness :
    countTriple (combineContents c5Clean).data = numSuccess c5Clean - 1
    ∧ Glued (successContentsL c5Clean) (combineContents c5Clean).data :=
  single_file_output_shape c5Clean (by decide)

/-- C7: when the configured commit message is blank, the git stage
commits exactly once with the message `Rendered claims: ` followed by the
comma-joined (successfully rendered) template names. -/
theorem blank_message_commit_default (results : List RenderResult)
    (config : RenderConfig) (env : String → String) (b : GitBackend) (gc : GitConfig)
    (hgc : config.GitConfig = some gc) (hcommit : gc.Commit = true)
    (hmsg : gc.Message = "")
    (hpushc : gc.Push = true → ∃ c, ResolveCredentials env gc.User gc.Token = .ok c)
    (hb : BackendOk b) (hfiles : collectFilePaths results ≠ []) :
    ∃ trace, executeGitOperations results config env b = .ok trace ∧
      commitMsgs trace =
        ["Rendered claims: " ++ String.intercalate ", " (successNames results)] := by
  obtain ⟨t, h1, h2⟩ :=
    executeGitOperations_commit results config env b gc hgc hcommit hpushc hb hfiles
  refine ⟨t, h1, ?_⟩
  rw [h2]
  simp [defaultMessage, hmsg]

theorem blank_message_commit_default_witness :
    (executeGitOperations [res7] cfg7 env0 okBackend).map commitMsgs =
      .ok [("Rendered claims: volumeclaim-simple" : String)] := by
  obtain ⟨t, h1, h2⟩ := blank_message_commit_default [res7] cfg7 env0 okBackend
    { Commit := true } rfl rfl rfl (fun h => absurd h (by decide)) okBackend_ok (by decide)
  rw [h1]
  simp only [Except.map]
  rw [h2]
  rfl

/-- C10: writing in single-file mode returns the result list exactly as
it was (no `OutputPath` is ever populated), unlike separate mode which
records a nonempty path on every written success; consequently a git
publish over results written only in single-file mode collects zero file
paths and fails with the no-files-to-commit error. -/
theorem single_file_mode_paths_and_publish :
    (∀ (o : IOOracle) (fs : FS) (results : List RenderResult) (cfg : OutputConfig)
        (fs1 : FS) (results1 : List RenderResult),
        cfg.SingleFile = true → cfg.DryRun = false →
        WriteResults o fs results cfg = .ok (fs1, results1) → results1 = results)
    ∧ (∀ (o : IOOracle) (cfg : OutputConfig) (results : List RenderResult)
        (fs fs1 : FS) (results1 : List RenderResult),
        writeSeparateFiles o cfg fs results = .ok (fs1, results1) →
        ∀ r ∈ results1, r.Error = none → r.OutputPath ≠ "")
    ∧ (∀ (results : List RenderResult) (config : RenderConfig) (env : String → String)
        (b : GitBackend) (gc : GitConfig),
        config.GitConfig = some gc → gc.Commit = true →
        (gc.Push = true → ∃ c, ResolveCredentials env gc.User gc.Token = .ok c) →
        BackendOk b → (∀ r ∈ results, r.OutputPath = "") →
        executeGitOperations results config env b = .error "no files to commit") := by
  refine ⟨?_, ?_, ?_⟩
  · intro o fs results cfg fs1 results1 hsingle hdry hw
    unfold WriteResults at hw
    simp [hdry, hsingle] at hw
    cases hmk : mkdirAllFS o fs cfg.Directory with
    | error e => rw [hmk] at hw; cases hw
    | ok fs2 =>
        rw [hmk] at hw
        dsimp only at hw
        unfold writeSingleFile at hw
        dsimp only at hw
        cases hwf : writeFileFS o fs2
            (joinPath cfg.Directory (singleFileName results)) (combineContents results) with
        | error e => rw [hwf] at hw; cases hw
        | ok fs3 =>
            rw [hwf] at hw
            injection hw with hw2
            injection hw2 with hw3 hw4
            exact hw4.symm
  · intro o cfg results fs fs1 results1 h
    exact writeSeparateFiles_marks o cfg results fs fs1 results1 h
  · intro results config env b gc hgc hcommit hpushc hb hempty
    exact executeGitOperations_no_files results config env b gc hgc hcommit hpushc hb hempty

theorem single_file_mode_paths_and_publish_witness :
    outCfgS.SingleFile = true
    ∧ WriteResults okOracle fs0 [c10r] outCfgS = .ok (c10fs, [c10r])
    ∧ ([c10r] : List RenderResult) = [c10r]
    ∧ executeGitOperations [c10r] cfgG env0 okBackend = .error "no files to commit" := by
  have hw : WriteResults okOracle fs0 [c10r] outCfgS = .ok (c10fs, [c10r]) := rfl
  refine ⟨rfl, hw, ?_, ?_⟩
  · exact single_file_mode_paths_and_publish.1 okOracle fs0 [c10r] outCfgS c10fs [c10r]
      rfl rfl hw
  · exact single_file_mode_paths_and_publish.2.2 [c10r] cfgG env0 okBackend
      { Commit := true } rfl rfl (fun h => absurd h (by decide)) okBackend_ok (by decide)

theorem mergeParams_inline_precedence_witness :
    iW "cpu" = some "8" ∧ MergeParams fW iW "cpu" = some "8"
    ∧ iW "mem" = none ∧ MergeParams fW iW "mem" = fW "mem"
    ∧ MergeParams (MergeParams fW iW) iW = MergeParams fW iW :=
  ⟨rfl, (mergeParams_inline_precedence fW iW).1 "cpu" "8" rfl, rfl,
   (mergeParams_inline_precedence fW iW).2.1 "mem" rfl,
   (mergeParams_inline_precedence fW iW).2.2⟩

end Claims
